import Mathlib

/-!
A shallow embedding of the download orchestration core of `author-today-cli`
(`src/services/download.ts`): the counting semaphore, the temp-file transfer
commit protocol, the retry loop, the skip-existing work-plan filter, the
aggregate progress accounting, and the file-name sanitizer, together with
theorems settling the specification claims about them.

Strings are modelled as `List Char`, byte streams as `List Nat`, and the
filesystem as explicit record state.  Fallible operations return `Except` or
`Option`.  All definitions are executable.
-/

namespace ATCli

/-! ### File-name sanitizer (`sanitizeFileName`, download.ts lines 283-288)

```
fileName.replace(/[<>:"/\\|?*]/g, '').replace(/\s+/g, ' ').trim()
```
-/

/-- The character class of `/[<>:"\/\\|?*]/`: the characters deleted by the
first `replace` of `sanitizeFileName`. -/
def forbiddenChar (c : Char) : Bool :=
  c == '<' || c == '>' || c == ':' || c == '"' || c == '/' ||
  c == '\\' || c == '|' || c == '?' || c == '*'

/-- The JavaScript regex class `\s` (whitespace), by code point. -/
def isJsSpace (c : Char) : Bool :=
  c.toNat == 0x9 || c.toNat == 0xa || c.toNat == 0xb || c.toNat == 0xc ||
  c.toNat == 0xd || c.toNat == 0x20 || c.toNat == 0xa0 || c.toNat == 0x1680 ||
  (decide (0x2000 ≤ c.toNat) && decide (c.toNat ≤ 0x200a)) ||
  c.toNat == 0x2028 || c.toNat == 0x2029 || c.toNat == 0x202f ||
  c.toNat == 0x205f || c.toNat == 0x3000 || c.toNat == 0xfeff

/-- `.replace(/[<>:"\/\\|?*]/g, '')`: delete every forbidden character. -/
def removeForbidden (l : List Char) : List Char :=
  l.filter (fun c => !forbiddenChar c)

/-- Operational model of `.replace(/\s+/g, ' ')`: scan left to right, a
maximal run of whitespace emits a single `' '`; `prevSpace` records whether
the scanner is inside a whitespace run. -/
def collapseWsAux (prevSpace : Bool) : List Char → List Char
  | [] => []
  | c :: cs =>
    if isJsSpace c then
      if prevSpace then collapseWsAux true cs else ' ' :: collapseWsAux true cs
    else c :: collapseWsAux false cs

/-- `.replace(/\s+/g, ' ')`. -/
def collapseWs (l : List Char) : List Char := collapseWsAux false l

/-- Drop trailing whitespace (the right half of `String.prototype.trim`). -/
def rdropWs : List Char → List Char
  | [] => []
  | c :: cs => if (rdropWs cs).isEmpty && isJsSpace c then [] else c :: rdropWs cs

/-- `String.prototype.trim()`: drop leading and trailing whitespace. -/
def trimWs (l : List Char) : List Char := rdropWs (l.dropWhile isJsSpace)

/-- `sanitizeFileName` (download.ts lines 283-288). -/
def sanitizeFileName (l : List Char) : List Char :=
  trimWs (collapseWs (removeForbidden l))

/-- The no-two-adjacent-whitespace relation used to state claim C10. -/
def NoAdj (x y : Char) : Prop := ¬(isJsSpace x = true ∧ isJsSpace y = true)

/-! #### Helper lemmas about `dropWhile` -/

lemma mem_of_mem_dropWhile {p : Char → Bool} :
    ∀ {l : List Char} {c : Char}, c ∈ List.dropWhile p l → c ∈ l := by
  intro l
  induction l with
  | nil => intro c h; simp at h
  | cons a l ih =>
    intro c h
    rw [List.dropWhile_cons] at h
    by_cases hp : p a = true
    · rw [if_pos hp] at h
      exact List.mem_cons_of_mem _ (ih h)
    · rw [if_neg hp] at h
      exact h

lemma head?_dropWhile_not {p : Char → Bool} :
    ∀ (l : List Char) {c : Char}, (List.dropWhile p l).head? = some c → p c = false := by
  intro l
  induction l with
  | nil => intro c h; simp at h
  | cons a l ih =>
    intro c h
    rw [List.dropWhile_cons] at h
    by_cases hp : p a = true
    · rw [if_pos hp] at h
      exact ih h
    · rw [if_neg hp] at h
      simp only [List.head?_cons, Option.some.injEq] at h
      subst h
      exact Bool.eq_false_iff.mpr hp

lemma dropWhile_eq_self_of_head {p : Char → Bool} :
    ∀ (l : List Char), (∀ c, l.head? = some c → p c = false) → List.dropWhile p l = l := by
  intro l h
  cases l with
  | nil => rfl
  | cons a l =>
    rw [List.dropWhile_cons, if_neg]
    rw [h a rfl]
    simp

lemma chain_dropWhile {R : Char → Char → Prop} {p : Char → Bool} :
    ∀ (l : List Char), l.Chain' R → (List.dropWhile p l).Chain' R := by
  intro l
  induction l with
  | nil => intro _; simp
  | cons a l ih =>
    intro h
    rw [List.dropWhile_cons]
    by_cases hp : p a = true
    · rw [if_pos hp]
      exact ih (List.chain'_cons'.mp h).2
    · rw [if_neg hp]
      exact h

/-! #### Helper lemmas about `rdropWs` -/

lemma mem_of_mem_rdropWs :
    ∀ {l : List Char} {c : Char}, c ∈ rdropWs l → c ∈ l := by
  intro l
  induction l with
  | nil => intro c h; simp [rdropWs] at h
  | cons a l ih =>
    intro c h
    simp only [rdropWs] at h
    by_cases hcond : ((rdropWs l).isEmpty && isJsSpace a) = true
    · rw [if_pos hcond] at h
      simp at h
    · rw [if_neg hcond] at h
      rcases List.mem_cons.mp h with h' | h'
      · subst h'; exact List.mem_cons_self _ _
      · exact List.mem_cons_of_mem _ (ih h')

lemma head?_rdropWs :
    ∀ {l : List Char} {c : Char}, (rdropWs l).head? = some c → l.head? = some c := by
  intro l c h
  cases l with
  | nil => simp [rdropWs] at h
  | cons a l =>
    simp only [rdropWs] at h
    by_cases hcond : ((rdropWs l).isEmpty && isJsSpace a) = true
    · rw [if_pos hcond] at h
      simp at h
    · rw [if_neg hcond] at h
      simp only [List.head?_cons, Option.some.injEq] at h
      subst h
      rfl

lemma getLast?_rdropWs_not :
    ∀ (l : List Char) {c : Char}, (rdropWs l).getLast? = some c → isJsSpace c = false := by
  intro l
  induction l with
  | nil => intro c h; simp [rdropWs] at h
  | cons a l ih =>
    intro c h
    simp only [rdropWs] at h
    by_cases hcond : ((rdropWs l).isEmpty && isJsSpace a) = true
    · rw [if_pos hcond] at h
      simp at h
    · rw [if_neg hcond] at h
      cases hr : rdropWs l with
      | nil =>
        rw [hr] at h hcond
        simp only [List.getLast?_singleton, Option.some.injEq] at h
        subst h
        simpa using hcond
      | cons b t =>
        rw [hr] at h
        rw [List.getLast?_cons_cons] at h
        exact ih (hr ▸ h)

lemma chain_rdropWs {R : Char → Char → Prop} :
    ∀ (l : List Char), l.Chain' R → (rdropWs l).Chain' R := by
  intro l
  induction l with
  | nil => intro _; simp [rdropWs]
  | cons a l ih =>
    intro h
    simp only [rdropWs]
    by_cases hcond : ((rdropWs l).isEmpty && isJsSpace a) = true
    · rw [if_pos hcond]
      exact List.chain'_nil
    · rw [if_neg hcond]
      refine List.chain'_cons'.mpr ⟨?_, ih (List.chain'_cons'.mp h).2⟩
      intro y hy
      have hy' : (rdropWs l).head? = some y := hy
      exact (List.chain'_cons'.mp h).1 y (head?_rdropWs hy')

lemma rdropWs_eq_self :
    ∀ (l : List Char), (∀ c, l.getLast? = some c → isJsSpace c = false) → rdropWs l = l
  | [], _ => rfl
  | [a], h => by
    have ha : isJsSpace a = false := h a (by simp)
    simp [rdropWs, ha]
  | a :: b :: t, h => by
    have htail : rdropWs (b :: t) = b :: t := by
      refine rdropWs_eq_self (b :: t) ?_
      intro c hc
      exact h c (by rw [List.getLast?_cons_cons]; exact hc)
    show (if (rdropWs (b :: t)).isEmpty && isJsSpace a then [] else a :: rdropWs (b :: t)) =
      a :: b :: t
    rw [htail]
    simp

/-! #### Helper lemmas about `collapseWsAux` -/

lemma mem_collapseWsAux :
    ∀ (l : List Char) (b : Bool) {c : Char}, c ∈ collapseWsAux b l → c = ' ' ∨ c ∈ l := by
  intro l
  induction l with
  | nil => intro b c h; simp [collapseWsAux] at h
  | cons a l ih =>
    intro b c h
    simp only [collapseWsAux] at h
    by_cases hsp : isJsSpace a = true
    · rw [if_pos hsp] at h
      cases b with
      | true =>
        rw [if_pos rfl] at h
        rcases ih true h with h' | h'
        · exact Or.inl h'
        · exact Or.inr (List.mem_cons_of_mem _ h')
      | false =>
        rw [if_neg (by simp)] at h
        rcases List.mem_cons.mp h with h' | h'
        · exact Or.inl h'
        · rcases ih true h' with h'' | h''
          · exact Or.inl h''
          · exact Or.inr (List.mem_cons_of_mem _ h'')
    · rw [if_neg hsp] at h
      rcases List.mem_cons.mp h with h' | h'
      · subst h'; exact Or.inr (List.mem_cons_self _ _)
      · rcases ih false h' with h'' | h''
        · exact Or.inl h''
        · exact Or.inr (List.mem_cons_of_mem _ h'')

lemma space_mem_collapseWsAux :
    ∀ (l : List Char) (b : Bool) {c : Char},
      c ∈ collapseWsAux b l → isJsSpace c = true → c = ' ' := by
  intro l
  induction l with
  | nil => intro b c h; simp [collapseWsAux] at h
  | cons a l ih =>
    intro b c h hc
    simp only [collapseWsAux] at h
    by_cases hsp : isJsSpace a = true
    · rw [if_pos hsp] at h
      cases b with
      | true => exact ih true h hc
      | false =>
        rw [if_neg (by simp)] at h
        rcases List.mem_cons.mp h with h' | h'
        · exact h'
        · exact ih true h' hc
    · rw [if_neg hsp] at h
      rcases List.mem_cons.mp h with h' | h'
      · subst h'; exact absurd hc hsp
      · exact ih false h' hc

lemma head?_collapseWsAux_true :
    ∀ (l : List Char) {c : Char}, (collapseWsAux true l).head? = some c → isJsSpace c = false := by
  intro l
  induction l with
  | nil => intro c h; simp [collapseWsAux] at h
  | cons a l ih =>
    intro c h
    simp only [collapseWsAux] at h
    by_cases hsp : isJsSpace a = true
    · rw [if_pos hsp, if_pos (by trivial)] at h
      exact ih h
    · rw [if_neg hsp] at h
      simp only [List.head?_cons, Option.some.injEq] at h
      subst h
      exact Bool.eq_false_iff.mpr hsp

lemma chain_collapseWsAux :
    ∀ (l : List Char) (b : Bool), (collapseWsAux b l).Chain' NoAdj := by
  intro l
  induction l with
  | nil => intro b; simp [collapseWsAux]
  | cons a l ih =>
    intro b
    simp only [collapseWsAux]
    by_cases hsp : isJsSpace a = true
    · rw [if_pos hsp]
      cases b with
      | true => exact ih true
      | false =>
        rw [if_neg (by simp)]
        refine List.chain'_cons'.mpr ⟨?_, ih true⟩
        intro y hy
        have : isJsSpace y = false := head?_collapseWsAux_true l hy
        intro hcontra
        rw [this] at hcontra
        exact absurd hcontra.2 (by simp)
    · rw [if_neg hsp]
      refine List.chain'_cons'.mpr ⟨?_, ih false⟩
      intro y _
      intro hcontra
      exact absurd hcontra.1 hsp

lemma collapseWsAux_true_eq_false :
    ∀ (l : List Char), (∀ c, l.head? = some c → isJsSpace c = false) →
      collapseWsAux true l = collapseWsAux false l := by
  intro l h
  cases l with
  | nil => rfl
  | cons a l =>
    have ha : isJsSpace a = false := h a rfl
    simp only [collapseWsAux, ha]
    simp

lemma collapseWsAux_false_eq_self :
    ∀ (l : List Char),
      (∀ c ∈ l, isJsSpace c = true → c = ' ') →
      l.Chain' NoAdj →
      collapseWsAux false l = l := by
  intro l
  induction l with
  | nil => intro _ _; rfl
  | cons a l ih =>
    intro hsp hchain
    simp only [collapseWsAux]
    by_cases ha : isJsSpace a = true
    · rw [if_pos ha]
      have haSpace : a = ' ' := hsp a (List.mem_cons_self _ _) ha
      have hheadl : ∀ c, l.head? = some c → isJsSpace c = false := by
        intro c hc
        have hR : NoAdj a c := (List.chain'_cons'.mp hchain).1 c hc
        by_contra hcc
        have hcc' : isJsSpace c = true := by
          cases h' : isJsSpace c with
          | true => rfl
          | false => exact absurd h' hcc
        exact hR ⟨ha, hcc'⟩
      rw [collapseWsAux_true_eq_false l hheadl]
      rw [ih (fun c hc => hsp c (List.mem_cons_of_mem _ hc)) (List.chain'_cons'.mp hchain).2]
      rw [haSpace]
      simp
    · rw [if_neg ha]
      rw [ih (fun c hc => hsp c (List.mem_cons_of_mem _ hc)) (List.chain'_cons'.mp hchain).2]

/-! #### Helper lemma about `filter` -/

lemma filter_eq_self_of_all {p : Char → Bool} :
    ∀ (l : List Char), (∀ c ∈ l, p c = true) → l.filter p = l := by
  intro l
  induction l with
  | nil => intro _; rfl
  | cons a l ih =>
    intro h
    rw [List.filter_cons, if_pos (h a (List.mem_cons_self _ _))]
    rw [ih (fun c hc => h c (List.mem_cons_of_mem _ hc))]

/-! #### The sanitized-output characterization -/

lemma sanitize_mem {s : List Char} {c : Char} (h : c ∈ sanitizeFileName s) :
    c = ' ' ∨ c ∈ s := by
  unfold sanitizeFileName trimWs collapseWs removeForbidden at h
  have h1 := mem_of_mem_rdropWs h
  have h2 := mem_of_mem_dropWhile h1
  rcases mem_collapseWsAux _ _ h2 with h3 | h3
  · exact Or.inl h3
  · exact Or.inr (List.mem_filter.mp h3).1

lemma sanitize_forbidden {s : List Char} {c : Char} (h : c ∈ sanitizeFileName s) :
    forbiddenChar c = false := by
  unfold sanitizeFileName trimWs collapseWs removeForbidden at h
  have h1 := mem_of_mem_rdropWs h
  have h2 := mem_of_mem_dropWhile h1
  rcases mem_collapseWsAux _ _ h2 with h3 | h3
  · subst h3; decide
  · have := (List.mem_filter.mp h3).2
    simpa using this

lemma sanitize_space_eq {s : List Char} {c : Char} (h : c ∈ sanitizeFileName s)
    (hc : isJsSpace c = true) : c = ' ' := by
  unfold sanitizeFileName trimWs collapseWs removeForbidden at h
  have h1 := mem_of_mem_rdropWs h
  have h2 := mem_of_mem_dropWhile h1
  exact space_mem_collapseWsAux _ _ h2 hc

lemma sanitize_chain (s : List Char) : (sanitizeFileName s).Chain' NoAdj := by
  unfold sanitizeFileName trimWs collapseWs
  exact chain_rdropWs _ (chain_dropWhile _ (chain_collapseWsAux _ _))

lemma sanitize_head {s : List Char} {c : Char}
    (h : (sanitizeFileName s).head? = some c) : isJsSpace c = false := by
  unfold sanitizeFileName trimWs at h
  exact head?_dropWhile_not _ (head?_rdropWs h)

lemma sanitize_getLast {s : List Char} {c : Char}
    (h : (sanitizeFileName s).getLast? = some c) : isJsSpace c = false := by
  unfold sanitizeFileName trimWs at h
  exact getLast?_rdropWs_not _ h

lemma sanitize_fixed (l : List Char)
    (hforb : ∀ c ∈ l, forbiddenChar c = false)
    (hsp : ∀ c ∈ l, isJsSpace c = true → c = ' ')
    (hchain : l.Chain' NoAdj)
    (hhead : ∀ c, l.head? = some c → isJsSpace c = false)
    (hlast : ∀ c, l.getLast? = some c → isJsSpace c = false) :
    sanitizeFileName l = l := by
  unfold sanitizeFileName
  have h1 : removeForbidden l = l := by
    unfold removeForbidden
    refine filter_eq_self_of_all l ?_
    intro c hc
    rw [hforb c hc]
    rfl
  rw [h1]
  have h2 : collapseWs l = l := collapseWsAux_false_eq_self l hsp hchain
  rw [h2]
  unfold trimWs
  rw [dropWhile_eq_self_of_head l hhead]
  exact rdropWs_eq_self l hlast

/-- Claim C10: the file-name sanitizer is idempotent, its output contains no
forbidden character from the class `[<>:"\/\\|?*]`, it never contains two
adjacent whitespace characters, and it has no leading or trailing
whitespace. -/
theorem C10_sanitizeFileName (s : List Char) :
    sanitizeFileName (sanitizeFileName s) = sanitizeFileName s ∧
    (∀ c ∈ sanitizeFileName s, forbiddenChar c = false) ∧
    (sanitizeFileName s).Chain' NoAdj ∧
    (∀ c, (sanitizeFileName s).head? = some c → isJsSpace c = false) ∧
    (∀ c, (sanitizeFileName s).getLast? = some c → isJsSpace c = false) := by
  refine ⟨?_, fun c hc => sanitize_forbidden hc, sanitize_chain s,
    fun c hc => sanitize_head hc, fun c hc => sanitize_getLast hc⟩
  exact sanitize_fixed (sanitizeFileName s)
    (fun c hc => sanitize_forbidden hc)
    (fun c hc => sanitize_space_eq hc)
    (sanitize_chain s)
    (fun c hc => sanitize_head hc)
    (fun c hc => sanitize_getLast hc)

/-- Claim C10, instantiated at a concrete title. -/
theorem C10_sanitizeFileName_witness :
    sanitizeFileName (sanitizeFileName [' ', 'a', '*', ' ', ' ', 'b', '?', ' ']) =
      sanitizeFileName [' ', 'a', '*', ' ', ' ', 'b', '?', ' '] ∧
    (∀ c ∈ sanitizeFileName [' ', 'a', '*', ' ', ' ', 'b', '?', ' '], forbiddenChar c = false) ∧
    (sanitizeFileName [' ', 'a', '*', ' ', ' ', 'b', '?', ' ']).Chain' NoAdj ∧
    (∀ c, (sanitizeFileName [' ', 'a', '*', ' ', ' ', 'b', '?', ' ']).head? = some c →
      isJsSpace c = false) ∧
    (∀ c, (sanitizeFileName [' ', 'a', '*', ' ', ' ', 'b', '?', ' ']).getLast? = some c →
      isJsSpace c = false) :=
  C10_sanitizeFileName [' ', 'a', '*', ' ', ' ', 'b', '?', ' ']

/-! ### Atomic file transfer (`downloadChapter`, download.ts lines 195-256)

One chapter transfer touches exactly two paths: the destination `outputPath`
and the sibling temporary `outputPath + '.tmp'`.  `FileSys` records the
contents (byte lists) at these two paths; `none` means the path is absent.
-/

/-- The temporary path used by `downloadChapter`: `outputPath + '.tmp'`. -/
def tempPathOf (outputPath : List Char) : List Char :=
  outputPath ++ ('.' :: 't' :: 'm' :: 'p' :: [])

/-- The filesystem state at the two paths a transfer touches. -/
structure FileSys where
  dest : Option (List Nat)
  tmp : Option (List Nat)
deriving DecidableEq

/-- Concatenate a list of byte chunks into the full stream body. -/
def concatChunks : List (List Nat) → List Nat
  | [] => []
  | c :: cs => c ++ concatChunks cs

/-- `fs.createWriteStream(tempPath)`: creates (or truncates) the temporary
file. -/
def openTemp (fs : FileSys) : FileSys := { fs with tmp := some [] }

/-- One `data` event: the chunk is appended to the temporary file. -/
def writeChunk (fs : FileSys) (chunk : List Nat) : FileSys :=
  { fs with tmp := some (fs.tmp.getD [] ++ chunk) }

/-- `fs.move(tempPath, outputPath)` (fs-extra, default `overwrite:false`):
renames the temporary file over the destination; fails (second component
`false`) when the destination already exists or the source is missing, in
which case the filesystem is unchanged. -/
def commitMove (fs : FileSys) : FileSys × Bool :=
  match fs.dest, fs.tmp with
  | none, some d => ({ dest := some d, tmp := none }, true)
  | _, _ => (fs, false)

/-- `fs.unlink(tempPath).catch(() => \x7b\x7d)`: best-effort temp deletion. -/
def unlinkTemp (fs : FileSys) : FileSys := { fs with tmp := none }

/-- How a transfer's streaming phase ends. -/
inductive XferEnd where
  /-- The writer emits `finish`: the full stream was written to the temp. -/
  | finishOk
  /-- The write stream emits `error`. -/
  | writerError
  /-- The response stream (`response.data`) emits `error`. -/
  | streamError
  /-- The process is interrupted: no handler runs at all. -/
  | interrupted
deriving DecidableEq

/-- Whether the promise returned by `downloadChapter` resolved or rejected
(`none`: the process died before settling). -/
inductive XferResult where
  | resolved
  | rejected
deriving DecidableEq

/-- The streaming phase: create the temp file, then append every chunk. -/
def streamPhase (fs : FileSys) (chunks : List (List Nat)) : FileSys :=
  chunks.foldl writeChunk (openTemp fs)

/-- The settlement phase, translated from the promise executor of
`downloadChapter` (lines 236-255):
`finish` → `fs.move(tempPath, outputPath)` then resolve (reject if the move
fails); writer `error` → unlink the temp (errors swallowed) then reject;
response-stream `error` → reject (note: no unlink on this path);
interruption → nothing runs. -/
def finishXfer (fs : FileSys) : XferEnd → FileSys × Option XferResult
  | .finishOk =>
    match commitMove fs with
    | (fs', true) => (fs', some .resolved)
    | (fs', false) => (fs', some .rejected)
  | .writerError => (unlinkTemp fs, some .rejected)
  | .streamError => (fs, some .rejected)
  | .interrupted => (fs, none)

/-- A whole single-attempt transfer: stream all chunks, then settle. -/
def runXfer (fs : FileSys) (chunks : List (List Nat)) (e : XferEnd) :
    FileSys × Option XferResult :=
  finishXfer (streamPhase fs chunks) e

lemma foldl_writeChunk_dest :
    ∀ (chunks : List (List Nat)) (fs : FileSys),
      (chunks.foldl writeChunk fs).dest = fs.dest := by
  intro chunks
  induction chunks with
  | nil => intro fs; rfl
  | cons c cs ih => intro fs; rw [List.foldl_cons, ih]; rfl

lemma streamPhase_dest (fs : FileSys) (chunks : List (List Nat)) :
    (streamPhase fs chunks).dest = fs.dest := by
  unfold streamPhase
  rw [foldl_writeChunk_dest]
  rfl

lemma foldl_writeChunk_tmp :
    ∀ (chunks : List (List Nat)) (fs : FileSys) (acc : List Nat),
      fs.tmp = some acc →
      (chunks.foldl writeChunk fs).tmp = some (acc ++ concatChunks chunks) := by
  intro chunks
  induction chunks with
  | nil => intro fs acc h; simp [concatChunks, h]
  | cons c cs ih =>
    intro fs acc h
    rw [List.foldl_cons]
    rw [ih (writeChunk fs c) (acc ++ c) (by simp [writeChunk, h])]
    simp [concatChunks]

lemma streamPhase_tmp (fs : FileSys) (chunks : List (List Nat)) :
    (streamPhase fs chunks).tmp = some (concatChunks chunks) := by
  unfold streamPhase
  rw [foldl_writeChunk_tmp chunks (openTemp fs) [] rfl]
  rfl

/-- Claim C2: during the streaming phase the destination path is never
touched (it stays exactly what it was before the transfer: absent, or a
previously completed file); any non-commit ending leaves the destination
untouched as well; and the destination is created only at the single commit
point, by renaming the completed temporary file whose contents are the full
received stream. -/
theorem C2_atomic_commit (fs : FileSys) (chunks : List (List Nat)) (k : Nat)
    (e : XferEnd) (he : e ≠ XferEnd.finishOk) :
    (streamPhase fs (chunks.take k)).dest = fs.dest ∧
    (runXfer fs chunks e).1.dest = fs.dest ∧
    (streamPhase fs chunks).tmp = some (concatChunks chunks) ∧
    (fs.dest = none →
      runXfer fs chunks XferEnd.finishOk =
        ({ dest := some (concatChunks chunks), tmp := none }, some XferResult.resolved)) ∧
    (fs.dest ≠ none → (runXfer fs chunks XferEnd.finishOk).1.dest = fs.dest) := by
  refine ⟨streamPhase_dest fs _, ?_, streamPhase_tmp fs chunks, ?_, ?_⟩
  · cases e with
    | finishOk => exact absurd rfl he
    | writerError => simp [runXfer, finishXfer, unlinkTemp, streamPhase_dest]
    | streamError => simp [runXfer, finishXfer, streamPhase_dest]
    | interrupted => simp [runXfer, finishXfer, streamPhase_dest]
  · intro hnone
    unfold runXfer finishXfer
    have hd : (streamPhase fs chunks).dest = none := by rw [streamPhase_dest, hnone]
    have ht : (streamPhase fs chunks).tmp = some (concatChunks chunks) :=
      streamPhase_tmp fs chunks
    simp [commitMove, hd, ht]
  · intro hsome
    unfold runXfer finishXfer
    have hd : (streamPhase fs chunks).dest = fs.dest := streamPhase_dest fs chunks
    rcases hd' : fs.dest with _ | d
    · exact absurd hd' hsome
    · have : commitMove (streamPhase fs chunks) = (streamPhase fs chunks, false) := by
        unfold commitMove
        rw [hd, hd']
      rw [this]
      simp [hd, hd']

/-- Claim C2, instantiated: a two-chunk transfer into an empty filesystem. -/
theorem C2_atomic_commit_witness :
    (streamPhase ⟨none, none⟩ ([[1], [2, 3]].take 1)).dest = (⟨none, none⟩ : FileSys).dest ∧
    (runXfer ⟨none, none⟩ [[1], [2, 3]] XferEnd.writerError).1.dest =
      (⟨none, none⟩ : FileSys).dest ∧
    (streamPhase ⟨none, none⟩ [[1], [2, 3]]).tmp = some (concatChunks [[1], [2, 3]]) ∧
    ((⟨none, none⟩ : FileSys).dest = none →
      runXfer ⟨none, none⟩ [[1], [2, 3]] XferEnd.finishOk =
        ({ dest := some (concatChunks [[1], [2, 3]]), tmp := none }, some XferResult.resolved)) ∧
    ((⟨none, none⟩ : FileSys).dest ≠ none →
      (runXfer ⟨none, none⟩ [[1], [2, 3]] XferEnd.finishOk).1.dest =
        (⟨none, none⟩ : FileSys).dest) :=
  C2_atomic_commit ⟨none, none⟩ [[1], [2, 3]] 1 XferEnd.writerError (by decide)

/-- Counterexample to claim C6: an attempt that fails with a response-stream
error (`response.data.on('error', reject)`, line 254) rejects but does NOT
delete the temporary file — the claimed "no temporary file deletion is
omitted on any error path" is false. -/
theorem C6_counterexample :
    (runXfer ⟨none, none⟩ [[7, 7]] XferEnd.streamError).2 = some XferResult.rejected ∧
    (runXfer ⟨none, none⟩ [[7, 7]] XferEnd.streamError).1.tmp = some [7, 7] ∧
    ¬((runXfer ⟨none, none⟩ [[7, 7]] XferEnd.streamError).1.tmp = none) := by
  decide

/-- Claim C6 as amended: on a WRITE-stream error the temporary file is
deleted (best effort) and the failure is signalled; on a response-stream
error the failure is signalled to the caller but the temporary file is left
in place (it is removed by the next run's `cleanupTempFiles`). -/
theorem C6_amended (fs : FileSys) (chunks : List (List Nat)) :
    (runXfer fs chunks XferEnd.writerError).1.tmp = none ∧
    (runXfer fs chunks XferEnd.writerError).2 = some XferResult.rejected ∧
    (runXfer fs chunks XferEnd.streamError).2 = some XferResult.rejected ∧
    (runXfer fs chunks XferEnd.streamError).1 = streamPhase fs chunks := by
  refine ⟨?_, rfl, rfl, rfl⟩
  simp [runXfer, finishXfer, unlinkTemp]

/-! ### Per-chunk progress samples (`downloadChapter`, lines 217-234) -/

/-- `Math.round(num / den * 100)` for nonnegative values:
`floor(100 * num / den + 1/2)`. -/
def jsRound100 (num den : Nat) : Nat := (200 * num + den) / (2 * den)

/-- `parseInt(response.headers['content-length'] || '0')`: the byte total is
the parsed header when present, `0` otherwise. -/
def contentLengthTotal (header : Option Nat) : Nat := header.getD 0

/-- One progress callback value (the `DownloadProgress` record). -/
structure ProgressSample where
  chapterId : Nat
  downloaded : Nat
  total : Nat
  percentage : Nat
deriving DecidableEq

/-- The sequence of progress samples emitted by the `data` handler: one per
chunk, with `downloaded` accumulated and
`percentage = totalSize > 0 ? Math.round(downloaded/totalSize*100) : 0`.
Chunks are represented by their lengths. -/
def chunkSamples (chapterId total : Nat) : List Nat → Nat → List ProgressSample
  | [], _ => []
  | c :: cs, downloaded =>
    { chapterId := chapterId, downloaded := downloaded + c, total := total,
      percentage := if 0 < total then jsRound100 (downloaded + c) total else 0 } ::
    chunkSamples chapterId total cs (downloaded + c)

lemma chunkSamples_length (chapterId total : Nat) :
    ∀ (chunks : List Nat) (acc : Nat),
      (chunkSamples chapterId total chunks acc).length = chunks.length := by
  intro chunks
  induction chunks with
  | nil => intro acc; rfl
  | cons c cs ih => intro acc; simp [chunkSamples, ih]

lemma chunkSamples_getElem (chapterId total : Nat) :
    ∀ (chunks : List Nat) (acc k : Nat),
      (chunkSamples chapterId total chunks acc)[k]? =
        if k < chunks.length then
          some { chapterId := chapterId, downloaded := acc + (chunks.take (k + 1)).sum,
                 total := total,
                 percentage := if 0 < total then
                   jsRound100 (acc + (chunks.take (k + 1)).sum) total else 0 }
        else none := by
  intro chunks
  induction chunks with
  | nil => intro acc k; simp [chunkSamples]
  | cons c cs ih =>
    intro acc k
    cases k with
    | zero => simp [chunkSamples]
    | succ k =>
      rw [chunkSamples]
      rw [List.getElem?_cons_succ]
      rw [ih (acc + c) k]
      simp only [List.take_succ_cons, List.sum_cons, List.length_cons,
        Nat.add_lt_add_iff_right]
      rw [show acc + c + (cs.take (k + 1)).sum = acc + (c + (cs.take (k + 1)).sum) from
        Nat.add_assoc acc c _]

lemma chunkSamples_zero_total (chapterId : Nat) :
    ∀ (chunks : List Nat) (acc : Nat),
      (chunkSamples chapterId 0 chunks acc).all (fun s => s.percentage == 0) = true := by
  intro chunks
  induction chunks with
  | nil => intro acc; rfl
  | cons c cs ih =>
    intro acc
    simp only [chunkSamples, List.all_cons, Bool.and_eq_true]
    exact ⟨by simp, ih (acc + c)⟩

/-- Claim C9: one progress sample per received chunk; `downloaded` is the
cumulative sum of the chunk lengths so far; `total` comes from the
content-length header when present and is `0` otherwise; when the total is
`0`/unknown every reported percentage is `0` (no division by zero), and
otherwise it is `Math.round(downloaded/total*100)`. -/
theorem C9_progress_samples (chapterId : Nat) (header : Option Nat)
    (chunks : List Nat) (k : Nat) :
    (chunkSamples chapterId (contentLengthTotal header) chunks 0).length = chunks.length ∧
    (chunkSamples chapterId (contentLengthTotal header) chunks 0)[k]? =
      (if k < chunks.length then
        some { chapterId := chapterId, downloaded := (chunks.take (k + 1)).sum,
               total := contentLengthTotal header,
               percentage := if 0 < contentLengthTotal header then
                 jsRound100 ((chunks.take (k + 1)).sum) (contentLengthTotal header) else 0 }
       else none) ∧
    contentLengthTotal none = 0 ∧
    (chunkSamples chapterId 0 chunks 0).all (fun s => s.percentage == 0) = true := by
  refine ⟨chunkSamples_length _ _ chunks 0, ?_, rfl, chunkSamples_zero_total _ chunks 0⟩
  rw [chunkSamples_getElem chapterId (contentLengthTotal header) chunks 0 k]
  simp

/-! ### Options defaulting (`options.concurrentDownloads || 3`,
`options.maxRetries || 3`) -/

/-- JavaScript `x || d` for a possibly-absent numeric option: `undefined`
and `0` are falsy, so both fall back to the default. -/
def orDefault (v : Option Nat) (d : Nat) : Nat :=
  match v with
  | none => d
  | some n => if n = 0 then d else n

/-- `options.concurrentDownloads || 3` (download.ts line 101). -/
def concurrentDownloadsOf (o : Option Nat) : Nat := orDefault o 3

/-- `options.maxRetries || 3` (download.ts line 142). -/
def maxAttemptsOf (o : Option Nat) : Nat := orDefault o 3

lemma maxAttemptsOf_pos (o : Option Nat) : 0 < maxAttemptsOf o := by
  cases o with
  | none => decide
  | some n =>
    simp only [maxAttemptsOf, orDefault]
    by_cases h : n = 0
    · rw [if_pos h]; decide
    · rw [if_neg h]; exact Nat.pos_of_ne_zero h

/-! ### Retry policy (the `while (attempts < maxAttempts)` loop,
download.ts lines 141-183)

The loop mutates `attempts` (the failure counter, incremented in the catch
block) and runs until either one `downloadChapter` call succeeds (`break`)
or `attempts` equals `maxAttempts` (terminal failure).  `retryGo` is
structurally recursive on `remaining`, the number of loop iterations the
guard still allows; it is invoked with `remaining = maxAttempts - attempts`,
so `remaining = 0` is exactly the case `attempts ≥ maxAttempts` in which the
loop body does not run, and in the step case the code's post-increment test
`attempts < maxAttempts` (with `attempts` already incremented) appears as
`attempts + 1 < maxAttempts`. -/

/-- Terminal per-chapter outcomes (spec section 3, Transfer Outcome). -/
inductive Outcome where
  | Completed
  | SkippedExisting
  | FailedAfterRetries
deriving DecidableEq

/-- The observable result of one run of the retry loop. -/
structure RetryState where
  /-- How many `downloadChapter` calls (loop iterations) were performed. -/
  attemptsMade : Nat
  /-- The final value of the code's `attempts` counter (failed attempts). -/
  failures : Nat
  /-- The waits performed between attempts, in milliseconds, in order. -/
  delays : List Nat
  /-- `some Completed` after a `break`, `some FailedAfterRetries` after the
  terminal else-branch, `none` when the loop body never ran. -/
  outcome : Option Outcome
  /-- How many times this chapter incremented `completedChapters`. -/
  completedInc : Nat
deriving DecidableEq

/-- The retry loop body.  `ok n` tells whether the `downloadChapter` call
made with `attempts = n` succeeds. -/
def retryGo (ok : Nat → Bool) (maxAttempts : Nat) : Nat → Nat → RetryState
  | 0, attempts =>
    { attemptsMade := 0, failures := attempts, delays := [], outcome := none,
      completedInc := 0 }
  | remaining + 1, attempts =>
    if ok attempts then
      { attemptsMade := 1, failures := attempts, delays := [],
        outcome := some Outcome.Completed, completedInc := 1 }
    else if attempts + 1 < maxAttempts then
      let r := retryGo ok maxAttempts remaining (attempts + 1)
      { attemptsMade := r.attemptsMade + 1, failures := r.failures,
        delays := 2000 :: r.delays, outcome := r.outcome,
        completedInc := r.completedInc }
    else
      { attemptsMade := 1, failures := attempts + 1, delays := [],
        outcome := some Outcome.FailedAfterRetries, completedInc := 1 }

/-- The whole retry loop, entered with `attempts = 0`. -/
def retryLoop (ok : Nat → Bool) (maxAttempts : Nat) : RetryState :=
  retryGo ok maxAttempts maxAttempts 0

/-- The one-step unfolding of the retry loop body. -/
lemma retryGo_succ (ok : Nat → Bool) (m rem attempts : Nat) :
    retryGo ok m (rem + 1) attempts =
      if ok attempts then
        { attemptsMade := 1, failures := attempts, delays := [],
          outcome := some Outcome.Completed, completedInc := 1 }
      else if attempts + 1 < m then
        { attemptsMade := (retryGo ok m rem (attempts + 1)).attemptsMade + 1,
          failures := (retryGo ok m rem (attempts + 1)).failures,
          delays := 2000 :: (retryGo ok m rem (attempts + 1)).delays,
          outcome := (retryGo ok m rem (attempts + 1)).outcome,
          completedInc := (retryGo ok m rem (attempts + 1)).completedInc }
      else
        { attemptsMade := 1, failures := attempts + 1, delays := [],
          outcome := some Outcome.FailedAfterRetries, completedInc := 1 } := rfl

lemma retryGo_fail_step (ok : Nat → Bool) (m rem attempts : Nat)
    (h : ok attempts = false) (hlt : attempts + 1 < m) :
    retryGo ok m (rem + 1) attempts =
      { attemptsMade := (retryGo ok m rem (attempts + 1)).attemptsMade + 1,
        failures := (retryGo ok m rem (attempts + 1)).failures,
        delays := 2000 :: (retryGo ok m rem (attempts + 1)).delays,
        outcome := (retryGo ok m rem (attempts + 1)).outcome,
        completedInc := (retryGo ok m rem (attempts + 1)).completedInc } := by
  rw [retryGo_succ, h]
  rw [if_neg (by simp), if_pos hlt]

lemma retryGo_allFail (ok : Nat → Bool) (m : Nat) (hA : ∀ n, ok n = false) :
    ∀ (rem attempts : Nat), rem + attempts = m → 0 < rem →
      retryGo ok m rem attempts =
        { attemptsMade := rem, failures := m,
          delays := List.replicate (rem - 1) 2000,
          outcome := some Outcome.FailedAfterRetries, completedInc := 1 } := by
  intro rem
  induction rem with
  | zero => intro attempts _ h0; exact absurd h0 (by decide)
  | succ r ih =>
    intro attempts hsum _
    cases r with
    | zero =>
      rw [retryGo_succ, hA attempts]
      rw [if_neg (by simp), if_neg (by omega)]
      have hm : attempts + 1 = m := by omega
      simp [hm]
    | succ r' =>
      rw [retryGo_fail_step ok m (r' + 1) attempts (hA attempts) (by omega)]
      rw [ih (attempts + 1) (by omega) (by omega)]
      simp [List.replicate_succ]

lemma retryLoop_allFail (ok : Nat → Bool) (m : Nat) (hA : ∀ n, ok n = false)
    (hm : 0 < m) :
    retryLoop ok m =
      { attemptsMade := m, failures := m, delays := List.replicate (m - 1) 2000,
        outcome := some Outcome.FailedAfterRetries, completedInc := 1 } :=
  retryGo_allFail ok m hA m 0 (Nat.add_zero m) hm

/-- A chapter that fails on attempts `0 .. j-1` and succeeds on attempt `j`
makes `j + 1` attempts with `j` delays. -/
lemma retryGo_failsUntil (ok : Nat → Bool) (m j : Nat)
    (hfail : ∀ n, n < j → ok n = false) (hsucc : ok j = true) :
    ∀ (rem attempts : Nat), rem + attempts = m → attempts ≤ j → j < m →
      retryGo ok m rem attempts =
        { attemptsMade := j + 1 - attempts, failures := j,
          delays := List.replicate (j - attempts) 2000,
          outcome := some Outcome.Completed, completedInc := 1 } := by
  intro rem
  induction rem with
  | zero =>
    intro attempts hsum hle hjm
    have : False := by omega
    exact this.elim
  | succ r ih =>
    intro attempts hsum hle hjm
    by_cases haj : attempts = j
    · subst haj
      rw [retryGo_succ, if_pos hsucc]
      have h1 : attempts + 1 - attempts = 1 := by omega
      have h2 : attempts - attempts = 0 := by omega
      rw [h1, h2]
      rfl
    · have hlt : attempts < j := lt_of_le_of_ne hle haj
      rw [retryGo_fail_step ok m r attempts (hfail attempts hlt) (by omega)]
      rw [ih (attempts + 1) (by omega) (by omega) hjm]
      have h1 : j + 1 - (attempts + 1) + 1 = j + 1 - attempts := by omega
      have h2 : j - attempts = (j - (attempts + 1)) + 1 := by omega
      rw [h2, List.replicate_succ]
      simp only [RetryState.mk.injEq]
      refine ⟨by omega, trivial, trivial, trivial, trivial⟩

lemma retryLoop_failThenOk (ok : Nat → Bool) (m : Nat)
    (h0 : ok 0 = false) (h1 : ok 1 = true) (hm : 2 ≤ m) :
    retryLoop ok m =
      { attemptsMade := 2, failures := 1, delays := [2000],
        outcome := some Outcome.Completed, completedInc := 1 } := by
  have hfail : ∀ n, n < 1 → ok n = false := by
    intro n hn
    have hn0 : n = 0 := by omega
    rw [hn0]
    exact h0
  have h := retryGo_failsUntil ok m 1 hfail h1 m 0 (Nat.add_zero m) (by omega) (by omega)
  unfold retryLoop
  rw [h]
  rfl

/-- Claim C3: with every attempt failing, the retry wrapper performs exactly
`maxRetries` attempts (default 3 when the option is absent) with a fixed
2000 ms wait between consecutive attempts and then stops with a terminal
per-chapter failure; with a failure then a success, exactly 2 attempts are
performed and the chapter ends `Completed`. -/
theorem C3_retry_policy (mo : Option Nat) (okA okB : Nat → Bool)
    (hA : ∀ n, okA n = false) (hB0 : okB 0 = false) (hB1 : okB 1 = true)
    (h2 : 2 ≤ maxAttemptsOf mo) :
    maxAttemptsOf none = 3 ∧
    retryLoop okA (maxAttemptsOf mo) =
      { attemptsMade := maxAttemptsOf mo, failures := maxAttemptsOf mo,
        delays := List.replicate (maxAttemptsOf mo - 1) 2000,
        outcome := some Outcome.FailedAfterRetries, completedInc := 1 } ∧
    retryLoop okB (maxAttemptsOf mo) =
      { attemptsMade := 2, failures := 1, delays := [2000],
        outcome := some Outcome.Completed, completedInc := 1 } :=
  ⟨rfl,
   retryLoop_allFail okA (maxAttemptsOf mo) hA (maxAttemptsOf_pos mo),
   retryLoop_failThenOk okB (maxAttemptsOf mo) hB0 hB1 h2⟩

/-- Claim C3, instantiated with the default `maxRetries` (absent option,
hence 3 attempts), an always-failing chapter and a fail-once chapter. -/
theorem C3_retry_policy_witness :
    (∀ n, (fun _ : Nat => false) n = false) ∧
    ((fun n : Nat => decide (n = 1)) 0 = false) ∧
    ((fun n : Nat => decide (n = 1)) 1 = true) ∧
    (2 ≤ maxAttemptsOf none) ∧
    (maxAttemptsOf none = 3 ∧
     retryLoop (fun _ => false) (maxAttemptsOf none) =
       { attemptsMade := maxAttemptsOf none, failures := maxAttemptsOf none,
         delays := List.replicate (maxAttemptsOf none - 1) 2000,
         outcome := some Outcome.FailedAfterRetries, completedInc := 1 } ∧
     retryLoop (fun n => decide (n = 1)) (maxAttemptsOf none) =
       { attemptsMade := 2, failures := 1, delays := [2000],
         outcome := some Outcome.Completed, completedInc := 1 }) :=
  ⟨fun _ => rfl, rfl, rfl, by decide,
   C3_retry_policy none (fun _ => false) (fun n => decide (n = 1))
     (fun _ => rfl) rfl rfl (by decide)⟩

/-! ### Provider-null attempts (`downloadChapter`, lines 201-205)

`downloadChapter` begins every attempt by calling
`this.api.getChapterAudioUrl(bookId, chapter.id)`; a `null` result throws
before any filesystem activity, which the retry loop catches like any other
error.  `provider n` is what the provider call made on the attempt with
`attempts = n` returns, and `stream n` tells whether that attempt's transfer
then succeeds. -/

/-- The error classes of one attempt (spec section 7). -/
inductive AttemptError where
  /-- The provider returned no usable URL (`audioUrl` null). -/
  | resourceUnavailable
  /-- A network/stream/write failure during the transfer. -/
  | transferError
deriving DecidableEq

/-- One `downloadChapter` attempt: resolve the URL (throwing
`ResourceUnavailable` on null), then stream the body. -/
def attemptChapter (provider : Nat → Option Nat) (stream : Nat → Bool)
    (n : Nat) : Except AttemptError Unit :=
  match provider n with
  | none => Except.error AttemptError.resourceUnavailable
  | some _ => if stream n then Except.ok () else Except.error AttemptError.transferError

/-- Whether the attempt made with `attempts = n` succeeds. -/
def attemptOk (provider : Nat → Option Nat) (stream : Nat → Bool) (n : Nat) : Bool :=
  match attemptChapter provider stream n with
  | Except.ok _ => true
  | Except.error _ => false

/-- Claim C5: a provider-null attempt fails with `ResourceUnavailable`, is
counted as one failed attempt and stays eligible for retry, the provider
call being re-issued on the next attempt (it is indexed by the attempt
number); a chapter whose provider returns null on attempts 1 and 2 and a
URL on attempt 3 (with the transfer then succeeding) ends `Completed` after
exactly 3 attempts. -/
theorem C5_resource_unavailable (provider : Nat → Option Nat)
    (stream : Nat → Bool) (u : Nat)
    (h0 : provider 0 = none) (h1 : provider 1 = none)
    (h2 : provider 2 = some u) (hs : stream 2 = true) :
    attemptChapter provider stream 0 = Except.error AttemptError.resourceUnavailable ∧
    attemptChapter provider stream 1 = Except.error AttemptError.resourceUnavailable ∧
    retryLoop (attemptOk provider stream) (maxAttemptsOf none) =
      { attemptsMade := 3, failures := 2, delays := [2000, 2000],
        outcome := some Outcome.Completed, completedInc := 1 } := by
  have hok0 : attemptOk provider stream 0 = false := by
    unfold attemptOk attemptChapter
    rw [h0]
  have hok1 : attemptOk provider stream 1 = false := by
    unfold attemptOk attemptChapter
    rw [h1]
  have hok2 : attemptOk provider stream 2 = true := by
    unfold attemptOk attemptChapter
    rw [h2, if_pos hs]
  refine ⟨by unfold attemptChapter; rw [h0], by unfold attemptChapter; rw [h1], ?_⟩
  have hfail : ∀ n, n < 2 → attemptOk provider stream n = false := by
    intro n hn
    cases n with
    | zero => exact hok0
    | succ n' =>
      cases n' with
      | zero => exact hok1
      | succ n'' => exact absurd hn (by omega)
  have h := retryGo_failsUntil (attemptOk provider stream) 3 2 hfail hok2 3 0
    (Nat.add_zero 3) (by omega) (by omega)
  unfold retryLoop
  rw [show maxAttemptsOf none = 3 from rfl, h]
  rfl

/-- Claim C5, instantiated with a provider that returns a URL only on the
third attempt. -/
theorem C5_resource_unavailable_witness :
    ((fun n : Nat => if n == 2 then some 9 else none) 0 = none) ∧
    ((fun n : Nat => if n == 2 then some 9 else none) 1 = none) ∧
    ((fun n : Nat => if n == 2 then some 9 else none) 2 = some 9) ∧
    ((fun _ : Nat => true) 2 = true) ∧
    (attemptChapter (fun n => if n == 2 then some 9 else none) (fun _ => true) 0 =
       Except.error AttemptError.resourceUnavailable ∧
     attemptChapter (fun n => if n == 2 then some 9 else none) (fun _ => true) 1 =
       Except.error AttemptError.resourceUnavailable ∧
     retryLoop (attemptOk (fun n => if n == 2 then some 9 else none) (fun _ => true))
         (maxAttemptsOf none) =
       { attemptsMade := 3, failures := 2, delays := [2000, 2000],
         outcome := some Outcome.Completed, completedInc := 1 }) :=
  ⟨rfl, rfl, rfl, rfl,
   C5_resource_unavailable (fun n => if n == 2 then some 9 else none)
     (fun _ => true) 9 rfl rfl rfl rfl⟩

/-! ### Bounded concurrency gate (`class Semaphore`, download.ts lines 10-37)

The class stores `permits` and `waitingQueue`.  `acquire()` decrements
`permits` and resolves immediately when a permit is free, otherwise pushes
its resolver at the END of the queue; `release()` shifts the resolver at the
FRONT of the queue when one is waiting, otherwise increments `permits`.

The embedding adds ghost instrumentation: queued acquirers are represented
by their arrival time (the index of their acquire event), and `held` counts
acquires that have resolved and whose matching `release()` has not yet run —
the class itself does not store this number. -/

/-- Semaphore state: the two stored fields plus the ghost `held` counter. -/
structure SemState where
  permits : Nat
  waiting : List Nat
  held : Nat
deriving DecidableEq

/-- `new Semaphore(permits)`. -/
def SemState.init (n : Nat) : SemState := { permits := n, waiting := [], held := 0 }

/-- `acquire()` called at time `t`. -/
def semAcquire (s : SemState) (t : Nat) : SemState :=
  if 0 < s.permits then
    { s with permits := s.permits - 1, held := s.held + 1 }
  else
    { s with waiting := s.waiting ++ [t] }

/-- `release()`: `shift()` the oldest waiter when the queue is non-empty
(the waiter now holds the released permit, so `held` is unchanged),
otherwise return the permit to the pool. -/
def semRelease (s : SemState) : SemState :=
  match s.waiting with
  | _ :: rest => { s with waiting := rest }
  | [] => { permits := s.permits + 1, waiting := [], held := s.held - 1 }

/-- The waiter that `release()` resolves: `waitingQueue.shift()`. -/
def semReleaseWoken (s : SemState) : Option Nat := s.waiting.head?

/-- A call in a usage trace of the semaphore. -/
inductive SemEvent where
  | acq
  | rel
deriving DecidableEq

def semStep (s : SemState) (t : Nat) : SemEvent → SemState
  | SemEvent.acq => semAcquire s t
  | SemEvent.rel => semRelease s

/-- Run a trace of calls, stamping each event with its index as the time. -/
def semRun : SemState → Nat → List SemEvent → SemState
  | s, _, [] => s
  | s, t, e :: es => semRun (semStep s t e) (t + 1) es

/-- A trace is well formed when every `release()` is made by a caller whose
`acquire()` has resolved and who has not released yet — which is how
`downloadChaptersParallel` uses the gate (acquire is awaited on line 139 and
the matching release runs once on line 185). -/
def semWF : SemState → Nat → List SemEvent → Bool
  | _, _, [] => true
  | s, t, SemEvent.acq :: es => semWF (semAcquire s t) (t + 1) es
  | s, t, SemEvent.rel :: es =>
    if 0 < s.held then semWF (semRelease s) (t + 1) es else false

/-- The inductive invariant of the gate: permits plus holders equals the
constructed permit count, the queue is non-empty only when no permit is
free, and the queue lists arrival times in strictly increasing order, all
in the past. -/
def SemInv (n t : Nat) (s : SemState) : Prop :=
  s.permits + s.held = n ∧
  (s.waiting ≠ [] → s.permits = 0) ∧
  s.waiting.Chain' (· < ·) ∧
  (∀ x ∈ s.waiting, x < t)

lemma chain_lt_snoc :
    ∀ (l : List Nat) (t : Nat), l.Chain' (· < ·) → (∀ x ∈ l, x < t) →
      (l ++ [t]).Chain' (· < ·)
  | [], t, _, _ => List.chain'_singleton t
  | [a], t, _, hb => List.chain'_cons.mpr ⟨hb a (List.mem_cons_self _ _), List.chain'_singleton t⟩
  | a :: b :: l, t, hc, hb => by
    rw [List.cons_append]
    refine List.chain'_cons.mpr ⟨(List.chain'_cons.mp hc).1, ?_⟩
    exact chain_lt_snoc (b :: l) t (List.chain'_cons.mp hc).2
      (fun x hx => hb x (List.mem_cons_of_mem _ hx))

lemma chain_lt_head :
    ∀ (rest : List Nat) (w : Nat), (w :: rest).Chain' (· < ·) → ∀ x ∈ rest, w < x
  | [], _, _, x, hx => absurd hx (List.not_mem_nil x)
  | y :: rest, w, hc, x, hx => by
    rcases List.mem_cons.mp hx with h | h
    · subst h
      exact (List.chain'_cons.mp hc).1
    · exact lt_trans (List.chain'_cons.mp hc).1 (chain_lt_head rest y (List.chain'_cons.mp hc).2 x h)

lemma semRelease_nil {s : SemState} (h : s.waiting = []) :
    semRelease s = { permits := s.permits + 1, waiting := [], held := s.held - 1 } := by
  unfold semRelease
  rw [h]

lemma semRelease_cons {s : SemState} {w : Nat} {rest : List Nat}
    (h : s.waiting = w :: rest) : semRelease s = { s with waiting := rest } := by
  unfold semRelease
  rw [h]

lemma semInv_acquire {n t : Nat} {s : SemState} (h : SemInv n t s) :
    SemInv n (t + 1) (semAcquire s t) := by
  obtain ⟨hsum, hq, hchain, hb⟩ := h
  unfold semAcquire
  by_cases hp : 0 < s.permits
  · rw [if_pos hp]
    refine ⟨?_, ?_, hchain, ?_⟩
    · show s.permits - 1 + (s.held + 1) = n
      omega
    · intro hwait
      exact absurd (hq hwait) (by omega)
    · intro x hx
      have := hb x hx
      omega
  · rw [if_neg hp]
    refine ⟨hsum, ?_, chain_lt_snoc s.waiting t hchain hb, ?_⟩
    · intro _
      show s.permits = 0
      omega
    · intro x hx
      rcases List.mem_append.mp hx with h' | h'
      · have := hb x h'; omega
      · simp at h'; omega

lemma semInv_release {n t : Nat} {s : SemState} (h : SemInv n t s)
    (hheld : 0 < s.held) : SemInv n (t + 1) (semRelease s) := by
  obtain ⟨hsum, hq, hchain, hb⟩ := h
  cases hw : s.waiting with
  | nil =>
    rw [semRelease_nil hw]
    refine ⟨?_, ?_, List.chain'_nil, ?_⟩
    · show s.permits + 1 + (s.held - 1) = n
      omega
    · intro hwait
      exact absurd rfl hwait
    · intro x hx
      simp at hx
  | cons w rest =>
    rw [semRelease_cons hw]
    refine ⟨hsum, ?_, ?_, ?_⟩
    · intro _
      show s.permits = 0
      exact hq (by rw [hw]; simp)
    · show rest.Chain' (· < ·)
      rw [hw] at hchain
      cases rest with
      | nil => exact List.chain'_nil
      | cons y rest' => exact (List.chain'_cons.mp hchain).2
    · intro x hx
      have hx' : x ∈ s.waiting := by
        rw [hw]
        exact List.mem_cons_of_mem _ hx
      have := hb x hx'
      omega

lemma semInv_run :
    ∀ (es : List SemEvent) (s : SemState) (t : Nat), semWF s t es = true →
      SemInv n t s → SemInv n (t + es.length) (semRun s t es) := by
  intro es
  induction es with
  | nil => intro s t _ h; simpa using h
  | cons e es ih =>
    intro s t hwf h
    cases e with
    | acq =>
      have h' := ih (semAcquire s t) (t + 1) hwf (semInv_acquire h)
      rw [semRun]
      have harith : t + 1 + es.length = t + (es.length + 1) := by omega
      rw [harith] at h'
      exact h'
    | rel =>
      rw [semWF] at hwf
      by_cases hheld : 0 < s.held
      · rw [if_pos hheld] at hwf
        have h' := ih (semRelease s) (t + 1) hwf (semInv_release h hheld)
        rw [semRun]
        have harith : t + 1 + es.length = t + (es.length + 1) := by omega
        rw [harith] at h'
        exact h'
      · rw [if_neg hheld] at hwf
        exact absurd hwf (by simp)

lemma semWF_prefix :
    ∀ (pre suf : List SemEvent) (s : SemState) (t : Nat),
      semWF s t (pre ++ suf) = true → semWF s t pre = true := by
  intro pre
  induction pre with
  | nil => intro suf s t _; rfl
  | cons e pre ih =>
    intro suf s t hwf
    cases e with
    | acq =>
      rw [List.cons_append, semWF] at hwf
      rw [semWF]
      exact ih suf _ _ hwf
    | rel =>
      rw [List.cons_append, semWF] at hwf
      rw [semWF]
      by_cases hheld : 0 < s.held
      · rw [if_pos hheld] at hwf ⊢
        exact ih suf _ _ hwf
      · rw [if_neg hheld] at hwf
        exact absurd hwf (by simp)

/-- Claim C1: the gate is a counting semaphore with permits fixed at
construction (`concurrentDownloads || 3`, so 3 when the option is absent):
along every well-formed trace of acquire/release calls, at every point the
number of resolved-but-unreleased acquires is at most the configured permit
count, and when the wait queue is non-empty `release()` resolves exactly the
queue head, which is the longest-waiting (oldest) queued acquirer. -/
theorem C1_semaphore_gate (o : Option Nat) (evs pre suf : List SemEvent)
    (hsplit : evs = pre ++ suf)
    (hwf : semWF (SemState.init (concurrentDownloadsOf o)) 0 evs = true) :
    concurrentDownloadsOf none = 3 ∧
    (semRun (SemState.init (concurrentDownloadsOf o)) 0 pre).held ≤ concurrentDownloadsOf o ∧
    (∀ w rest,
      (semRun (SemState.init (concurrentDownloadsOf o)) 0 pre).waiting = w :: rest →
      semReleaseWoken (semRun (SemState.init (concurrentDownloadsOf o)) 0 pre) = some w ∧
      (semRelease (semRun (SemState.init (concurrentDownloadsOf o)) 0 pre)).waiting = rest ∧
      (∀ x ∈ rest, w < x)) := by
  subst hsplit
  have hwfpre := semWF_prefix pre suf _ _ hwf
  have hinv0 : SemInv (concurrentDownloadsOf o) 0 (SemState.init (concurrentDownloadsOf o)) :=
    ⟨by show concurrentDownloadsOf o + 0 = concurrentDownloadsOf o; omega,
     fun hw => absurd rfl hw,
     List.chain'_nil,
     fun x hx => absurd hx (List.not_mem_nil x)⟩
  have hinv := semInv_run pre _ 0 hwfpre hinv0
  obtain ⟨hsum, _, hchain, _⟩ := hinv
  refine ⟨rfl, by omega, ?_⟩
  intro w rest hw
  refine ⟨?_, ?_, ?_⟩
  · unfold semReleaseWoken
    rw [hw]
    rfl
  · unfold semRelease
    rw [hw]
  · rw [hw] at hchain
    exact chain_lt_head rest w hchain

/-- Claim C1, instantiated: two permits, three acquires (the third queues),
then three releases. -/
theorem C1_semaphore_gate_witness :
    concurrentDownloadsOf none = 3 ∧
    (semRun (SemState.init (concurrentDownloadsOf (some 2))) 0
      [SemEvent.acq, SemEvent.acq, SemEvent.acq]).held ≤ concurrentDownloadsOf (some 2) ∧
    (∀ w rest,
      (semRun (SemState.init (concurrentDownloadsOf (some 2))) 0
        [SemEvent.acq, SemEvent.acq, SemEvent.acq]).waiting = w :: rest →
      semReleaseWoken (semRun (SemState.init (concurrentDownloadsOf (some 2))) 0
        [SemEvent.acq, SemEvent.acq, SemEvent.acq]) = some w ∧
      (semRelease (semRun (SemState.init (concurrentDownloadsOf (some 2))) 0
        [SemEvent.acq, SemEvent.acq, SemEvent.acq])).waiting = rest ∧
      (∀ x ∈ rest, w < x)) :=
  C1_semaphore_gate (some 2)
    [SemEvent.acq, SemEvent.acq, SemEvent.acq, SemEvent.rel, SemEvent.rel, SemEvent.rel]
    [SemEvent.acq, SemEvent.acq, SemEvent.acq]
    [SemEvent.rel, SemEvent.rel, SemEvent.rel]
    rfl (by decide)

/-! ### Work plan and skip-existing filter (`downloadChaptersParallel`,
download.ts lines 101-125) -/

/-- An audio chapter (types/index.ts lines 98-105); only `id` and `title`
are used by the download path computation, `duration` and `order` are
carried metadata. -/
structure AudioChapter where
  id : Nat
  title : List Char
  duration : Nat
  order : Nat
deriving DecidableEq

/-- `String(i + 1).padStart(3, '0')`. -/
def padStart3 (n : Nat) : List Char :=
  List.replicate (3 - (Nat.repr n).toList.length) '0' ++ (Nat.repr n).toList

/-- The destination path of the chapter at 0-based position `i`:
`path.join(bookDir, NNN. <sanitized title>.mp3)` with `NNN = i + 1`
zero-padded to 3 digits (line 107); `path.join` is modelled as
concatenation with `'/'`. -/
def chapterPath (bookDir : List Char) (i : Nat) (title : List Char) : List Char :=
  bookDir ++ '/' :: (padStart3 (i + 1) ++ '.' :: ' ' ::
    (sanitizeFileName title ++ '.' :: 'm' :: 'p' :: '3' :: []))

/-- One entry of `chaptersToDownload` (lines 115-119). -/
structure PlanEntry where
  chapter : AudioChapter
  index : Nat
  path : List Char
deriving DecidableEq

/-- The plan-building loop (lines 105-120): returns the pair
(`chaptersToDownload`, chapters skipped as already existing).  `ex` is
`fs.pathExists`.  A chapter is skipped exactly when
`options.skipExisting && await fs.pathExists(chapterPath)`. -/
def buildPlanFrom (skipExisting : Bool) (ex : List Char → Bool) (bookDir : List Char) :
    List AudioChapter → Nat → List PlanEntry × List AudioChapter
  | [], _ => ([], [])
  | ch :: rest, i =>
    let p := chapterPath bookDir i ch.title
    let r := buildPlanFrom skipExisting ex bookDir rest (i + 1)
    if skipExisting && ex p then (r.1, ch :: r.2)
    else ({ chapter := ch, index := i, path := p } :: r.1, r.2)

/-- The chapters actually queued for transfer (`chaptersToDownload`). -/
def planOf (skipExisting : Bool) (ex : List Char → Bool) (bd : List Char)
    (chs : List AudioChapter) : List PlanEntry :=
  (buildPlanFrom skipExisting ex bd chs 0).1

/-- The chapters reported ("Пропускаем…") as already existing. -/
def skippedOf (skipExisting : Bool) (ex : List Char → Bool) (bd : List Char)
    (chs : List AudioChapter) : List AudioChapter :=
  (buildPlanFrom skipExisting ex bd chs 0).2

/-- The destination paths of all chapters, in order, starting at
position `i`. -/
def allPathsFrom (bd : List Char) : List AudioChapter → Nat → List (List Char)
  | [], _ => []
  | ch :: rest, i => chapterPath bd i ch.title :: allPathsFrom bd rest (i + 1)

/-- The filesystem seen by a second run after a fully successful first run
on the same chapter list: every chapter's destination path now exists (it
was either skipped because it already existed, or committed by its
transfer), and whatever existed before still exists. -/
def afterSuccessfulRun (ex : List Char → Bool) (bd : List Char)
    (chs : List AudioChapter) : List Char → Bool :=
  fun p => decide (p ∈ allPathsFrom bd chs 0) || ex p

lemma buildPlan_mem_plan (ex : List Char → Bool) (bd : List Char) :
    ∀ (chs : List AudioChapter) (i0 : Nat) (e : PlanEntry),
      e ∈ (buildPlanFrom true ex bd chs i0).1 →
      ∃ k, e.index = i0 + k ∧ chs[k]? = some e.chapter ∧
        e.path = chapterPath bd e.index e.chapter.title ∧ ex e.path = false := by
  intro chs
  induction chs with
  | nil => intro i0 e he; simp [buildPlanFrom] at he
  | cons ch rest ih =>
    intro i0 e he
    simp only [buildPlanFrom] at he
    by_cases hc : (true && ex (chapterPath bd i0 ch.title)) = true
    · rw [if_pos hc] at he
      obtain ⟨k, hk1, hk2, hk3, hk4⟩ := ih (i0 + 1) e he
      exact ⟨k + 1, by omega, by rw [List.getElem?_cons_succ]; exact hk2, hk3, hk4⟩
    · rw [if_neg hc] at he
      rcases List.mem_cons.mp he with h' | h'
      · subst h'
        refine ⟨0, by show i0 = i0 + 0; omega, by simp, rfl, ?_⟩
        simp only [Bool.true_and] at hc
        exact Bool.eq_false_iff.mpr hc
      · obtain ⟨k, hk1, hk2, hk3, hk4⟩ := ih (i0 + 1) e h'
        exact ⟨k + 1, by omega, by rw [List.getElem?_cons_succ]; exact hk2, hk3, hk4⟩

lemma buildPlan_mem_skipped (ex : List Char → Bool) (bd : List Char) :
    ∀ (chs : List AudioChapter) (i0 k : Nat) (ch : AudioChapter),
      chs[k]? = some ch → ex (chapterPath bd (i0 + k) ch.title) = true →
      ch ∈ (buildPlanFrom true ex bd chs i0).2 := by
  intro chs
  induction chs with
  | nil => intro i0 k ch h _; simp at h
  | cons ch0 rest ih =>
    intro i0 k ch hk hex
    simp only [buildPlanFrom]
    cases k with
    | zero =>
      simp only [List.getElem?_cons_zero, Option.some.injEq] at hk
      subst hk
      rw [Nat.add_zero] at hex
      rw [if_pos (by rw [Bool.true_and]; exact hex)]
      exact List.mem_cons_self _ _
    | succ k =>
      rw [List.getElem?_cons_succ] at hk
      have hex' : ex (chapterPath bd ((i0 + 1) + k) ch.title) = true := by
        rw [show (i0 + 1) + k = i0 + (k + 1) from by omega]
        exact hex
      by_cases hc : (true && ex (chapterPath bd i0 ch0.title)) = true
      · rw [if_pos hc]
        exact List.mem_cons_of_mem _ (ih (i0 + 1) k ch hk hex')
      · rw [if_neg hc]
        exact ih (i0 + 1) k ch hk hex'

lemma buildPlan_allExist (ex2 : List Char → Bool) (bd : List Char) :
    ∀ (chs : List AudioChapter) (i0 : Nat),
      (∀ k ch, chs[k]? = some ch → ex2 (chapterPath bd (i0 + k) ch.title) = true) →
      buildPlanFrom true ex2 bd chs i0 = ([], chs) := by
  intro chs
  induction chs with
  | nil => intro i0 _; rfl
  | cons ch rest ih =>
    intro i0 hall
    simp only [buildPlanFrom]
    have h0 : ex2 (chapterPath bd i0 ch.title) = true := by
      have h := hall 0 ch (by simp)
      rw [Nat.add_zero] at h
      exact h
    rw [if_pos (by rw [Bool.true_and]; exact h0)]
    have hrest : buildPlanFrom true ex2 bd rest (i0 + 1) = ([], rest) := by
      refine ih (i0 + 1) ?_
      intro k ch' hk
      have h := hall (k + 1) ch' (by rw [List.getElem?_cons_succ]; exact hk)
      rw [show i0 + (k + 1) = (i0 + 1) + k from by omega] at h
      exact h
    rw [hrest]

lemma mem_allPathsFrom (bd : List Char) :
    ∀ (chs : List AudioChapter) (i0 k : Nat) (ch : AudioChapter),
      chs[k]? = some ch → chapterPath bd (i0 + k) ch.title ∈ allPathsFrom bd chs i0 := by
  intro chs
  induction chs with
  | nil => intro i0 k ch h; simp at h
  | cons ch0 rest ih =>
    intro i0 k ch hk
    cases k with
    | zero =>
      simp only [List.getElem?_cons_zero, Option.some.injEq] at hk
      subst hk
      rw [Nat.add_zero]
      exact List.mem_cons_self _ _
    | succ k =>
      rw [List.getElem?_cons_succ] at hk
      have h := ih (i0 + 1) k ch hk
      rw [show (i0 + 1) + k = i0 + (k + 1) from by omega] at h
      exact List.mem_cons_of_mem _ h

/-- Claim C4: with `skipExisting = true` every planned chapter's destination
does not exist (chapters whose destination exists are excluded before any
transfer and land in the skipped report), every chapter whose destination
exists is reported skipped, and a second run over the filesystem produced by
a fully successful first run plans zero transfers and reports every chapter
as skipped. -/
theorem C4_skip_existing (ex : List Char → Bool) (bd : List Char)
    (chs : List AudioChapter) :
    (∀ e ∈ planOf true ex bd chs, chs[e.index]? = some e.chapter ∧
       e.path = chapterPath bd e.index e.chapter.title ∧ ex e.path = false) ∧
    (∀ k ch, chs[k]? = some ch → ex (chapterPath bd k ch.title) = true →
       ch ∈ skippedOf true ex bd chs) ∧
    planOf true (afterSuccessfulRun ex bd chs) bd chs = [] ∧
    skippedOf true (afterSuccessfulRun ex bd chs) bd chs = chs := by
  have hall : ∀ k ch, chs[k]? = some ch →
      afterSuccessfulRun ex bd chs (chapterPath bd (0 + k) ch.title) = true := by
    intro k ch hk
    unfold afterSuccessfulRun
    rw [Bool.or_eq_true]
    exact Or.inl (decide_eq_true (mem_allPathsFrom bd chs 0 k ch hk))
  have hsecond := buildPlan_allExist (afterSuccessfulRun ex bd chs) bd chs 0 hall
  refine ⟨?_, ?_, ?_, ?_⟩
  · intro e he
    obtain ⟨k, hk1, hk2, hk3, hk4⟩ := buildPlan_mem_plan ex bd chs 0 e he
    have hik : e.index = k := by omega
    rw [hik] at hk3 ⊢
    exact ⟨hk2, hk3, hk4⟩
  · intro k ch hk hex
    refine buildPlan_mem_skipped ex bd chs 0 k ch hk ?_
    rw [Nat.zero_add]
    exact hex
  · show (buildPlanFrom true (afterSuccessfulRun ex bd chs) bd chs 0).1 = []
    rw [hsecond]
  · show (buildPlanFrom true (afterSuccessfulRun ex bd chs) bd chs 0).2 = chs
    rw [hsecond]

/-- Claim C4, instantiated at a one-chapter list over an empty filesystem. -/
theorem C4_skip_existing_witness :
    (∀ e ∈ planOf true (fun _ => false) [] [{ id := 1, title := ['a'], duration := 0, order := 0 }],
       ([{ id := 1, title := ['a'], duration := 0, order := 0 }] :
         List AudioChapter)[e.index]? = some e.chapter ∧
       e.path = chapterPath [] e.index e.chapter.title ∧ (fun _ => false) e.path = false) ∧
    (∀ k ch, ([{ id := 1, title := ['a'], duration := 0, order := 0 }] :
         List AudioChapter)[k]? = some ch →
       (fun _ => false) (chapterPath [] k ch.title) = true →
       ch ∈ skippedOf true (fun _ => false) []
         [{ id := 1, title := ['a'], duration := 0, order := 0 }]) ∧
    planOf true
      (afterSuccessfulRun (fun _ => false) []
        [{ id := 1, title := ['a'], duration := 0, order := 0 }])
      [] [{ id := 1, title := ['a'], duration := 0, order := 0 }] = [] ∧
    skippedOf true
      (afterSuccessfulRun (fun _ => false) []
        [{ id := 1, title := ['a'], duration := 0, order := 0 }])
      [] [{ id := 1, title := ['a'], duration := 0, order := 0 }] =
      [{ id := 1, title := ['a'], duration := 0, order := 0 }] :=
  C4_skip_existing (fun _ => false) [] [{ id := 1, title := ['a'], duration := 0, order := 0 }]

/-! ### Orchestrator bookkeeping (`downloadChaptersParallel`,
download.ts lines 126-190)

Each planned chapter runs its own retry loop; the state shared between the
chapter tasks is the `completedChapters` counter, the `activeDownloads` map
(chapter id → latest progress), the console reports, and the emitted
status lines.  The model serializes the chapter tasks (each chapter's
bookkeeping is independent of the others' scheduling). -/

/-- One value of the `activeDownloads` map (line 135): the chapter (kept
here as id and title, which is what the status line prints) together with
its latest reported percentage. -/
structure ActiveEntry where
  id : Nat
  title : List Char
  percentage : Nat
deriving DecidableEq

/-- `activeDownloads.set(chapter.id.toString(), { chapter, progress })`
(line 148): a JS Map `set` updates an existing key in place and otherwise
appends in insertion order — `Array.from(map.values())` then yields this
list order. -/
def setActive : List ActiveEntry → AudioChapter → Nat → List ActiveEntry
  | [], ch, p => [{ id := ch.id, title := ch.title, percentage := p }]
  | e :: rest, ch, p =>
    if e.id = ch.id then { id := ch.id, title := ch.title, percentage := p } :: rest
    else e :: setActive rest ch p

/-- `activeDownloads.delete(chapter.id.toString())` (lines 160 and 168). -/
def deleteActive : List ActiveEntry → Nat → List ActiveEntry
  | [], _ => []
  | e :: rest, i => if e.id = i then rest else e :: deleteActive rest i

/-- A terminal per-chapter report: one console line per chapter — the skip
line (111), the success line (163), or the final-error line (179). -/
structure ChapterReport where
  chapter : AudioChapter
  outcome : Outcome
deriving DecidableEq

/-- One emitted status line (lines 150-156): the overall percentage
together with the counter value and total it was computed from, and the
`activeProgresses` component — the per-chapter percentages of all currently
active transfers, read off the `activeDownloads` map. -/
structure ProgressLine where
  overallPct : Nat
  completed : Nat
  total : Nat
  active : List ActiveEntry
deriving DecidableEq

/-- The orchestrator's shared mutable state. -/
structure OrchState where
  completedChapters : Nat
  reports : List ChapterReport
  progressLines : List ProgressLine
  active : List ActiveEntry
deriving DecidableEq

/-- The progress callback of one chapter's transfer (lines 146-157), run
once per received chunk: update this chapter's entry in `activeDownloads`
with the sample's percentage, then print the overall percentage
`Math.round(completedChapters / totalChapters * 100)` together with the
per-chapter percentages of all currently active transfers.  `pcts` is the
sequence of callback percentages; returns the emitted lines and the map
state after the last callback. -/
def emitSamples (ch : AudioChapter) (completed total : Nat) :
    List Nat → List ActiveEntry → List ProgressLine × List ActiveEntry
  | [], act => ([], act)
  | p :: ps, act =>
    ({ overallPct := jsRound100 completed total, completed := completed,
       total := total, active := setActive act ch p } ::
       (emitSamples ch completed total ps (setActive act ch p)).1,
     (emitSamples ch completed total ps (setActive act ch p)).2)

/-- Process one planned chapter: its transfer's progress callbacks run
(`pcts`, the percentages across all attempts), then the retry loop's
terminal bookkeeping: the chapter's entry is removed from `activeDownloads`
(line 160 on success, line 168 in the catch block), a success is reported
`Completed` (line 163), the last failed attempt is reported
`FailedAfterRetries` (line 179), and in BOTH cases `completedChapters` is
incremented (lines 161 and 178). -/
def processChapter (ok : Nat → Bool) (m total : Nat) (pcts : List Nat)
    (ch : AudioChapter) (st : OrchState) : OrchState :=
  { completedChapters := st.completedChapters + (retryLoop ok m).completedInc,
    reports := st.reports ++
      (match (retryLoop ok m).outcome with
       | some o => [{ chapter := ch, outcome := o }]
       | none => []),
    progressLines := st.progressLines ++
      (emitSamples ch st.completedChapters total pcts st.active).1,
    active := deleteActive (emitSamples ch st.completedChapters total pcts st.active).2 ch.id }

/-- Run the plan: `oracle i` is the attempt oracle of the `i`-th planned
chapter, `ns i` its callback percentages. -/
def runPlan (oracle : Nat → Nat → Bool) (ns : Nat → List Nat) (m total : Nat) :
    List PlanEntry → Nat → OrchState → OrchState
  | [], _, st => st
  | e :: rest, i, st =>
    runPlan oracle ns m total rest (i + 1)
      (processChapter (oracle i) m total (ns i) e.chapter st)

/-- `downloadChaptersParallel`: build the plan (skipped chapters are
reported immediately), then drive every planned chapter through the retry
loop; `totalChapters` is the length of `chaptersToDownload` (line 134) and
`activeDownloads` starts empty (line 135). -/
def orchestrate (skipExisting : Bool) (ex : List Char → Bool) (bookDir : List Char)
    (chapters : List AudioChapter) (oracle : Nat → Nat → Bool) (ns : Nat → List Nat)
    (mo : Option Nat) : OrchState :=
  runPlan oracle ns (maxAttemptsOf mo)
    (buildPlanFrom skipExisting ex bookDir chapters 0).1.length
    (buildPlanFrom skipExisting ex bookDir chapters 0).1 0
    { completedChapters := 0,
      reports := (buildPlanFrom skipExisting ex bookDir chapters 0).2.map
        (fun ch => { chapter := ch, outcome := Outcome.SkippedExisting }),
      progressLines := [],
      active := [] }

/-- The value `downloadChaptersParallel` returns to its caller:
`Promise<void>` resolves with no data (lines 94-100, 188-190). -/
def downloadChaptersParallelRet (_skipExisting : Bool) (_ex : List Char → Bool)
    (_bookDir : List Char) (_chapters : List AudioChapter)
    (_oracle : Nat → Nat → Bool) (_ns : Nat → List Nat) (_mo : Option Nat) : Unit := ()

/-- Last-write-wins per chapter key: re-setting a chapter's entry keeps only
the latest percentage. -/
lemma setActive_lastWrite (ch : AudioChapter) :
    ∀ (act : List ActiveEntry) (p q : Nat),
      setActive (setActive act ch p) ch q = setActive act ch q := by
  intro act
  induction act with
  | nil =>
    intro p q
    simp [setActive]
  | cons e rest ih =>
    intro p q
    by_cases h : e.id = ch.id
    · have h1 : setActive (e :: rest) ch p =
          { id := ch.id, title := ch.title, percentage := p } :: rest := by
        simp only [setActive]
        rw [if_pos h]
      have h2 : setActive (e :: rest) ch q =
          { id := ch.id, title := ch.title, percentage := q } :: rest := by
        simp only [setActive]
        rw [if_pos h]
      rw [h1, h2]
      simp only [setActive]
      simp
    · have h1 : setActive (e :: rest) ch p = e :: setActive rest ch p := by
        simp only [setActive]
        rw [if_neg h]
      have h2 : setActive (e :: rest) ch q = e :: setActive rest ch q := by
        simp only [setActive]
        rw [if_neg h]
      rw [h1, h2]
      simp only [setActive]
      rw [if_neg h, ih]

lemma emitSamples_mem (ch : AudioChapter) (c t : Nat) :
    ∀ (pcts : List Nat) (act : List ActiveEntry),
      ∀ pl ∈ (emitSamples ch c t pcts act).1,
        pl.overallPct = jsRound100 c t ∧ pl.completed = c ∧ pl.total = t ∧
        ∃ p ∈ pcts, pl.active = setActive act ch p := by
  intro pcts
  induction pcts with
  | nil => intro act pl hpl; simp [emitSamples] at hpl
  | cons p ps ih =>
    intro act pl hpl
    simp only [emitSamples] at hpl
    rcases List.mem_cons.mp hpl with h | h
    · subst h
      exact ⟨rfl, rfl, rfl, p, List.mem_cons_self _ _, rfl⟩
    · obtain ⟨h1, h2, h3, q, hq, h4⟩ := ih (setActive act ch p) pl h
      refine ⟨h1, h2, h3, q, List.mem_cons_of_mem _ hq, ?_⟩
      rw [h4]
      exact setActive_lastWrite ch act p q

lemma emitSamples_act (ch : AudioChapter) (c t : Nat) :
    ∀ (pcts : List Nat) (act : List ActiveEntry),
      (emitSamples ch c t pcts act).2 = act ∨
      ∃ p, (emitSamples ch c t pcts act).2 = setActive act ch p := by
  intro pcts
  induction pcts with
  | nil => intro act; exact Or.inl rfl
  | cons p ps ih =>
    intro act
    rcases ih (setActive act ch p) with h | ⟨q, h⟩
    · right
      refine ⟨p, ?_⟩
      show (emitSamples ch c t ps (setActive act ch p)).2 = setActive act ch p
      exact h
    · right
      refine ⟨q, ?_⟩
      show (emitSamples ch c t ps (setActive act ch p)).2 = setActive act ch q
      rw [h]
      exact setActive_lastWrite ch act p q

/-- A chapter removes its own `activeDownloads` entry at its terminal
outcome, so a chapter task started on an empty map leaves an empty map. -/
lemma processChapter_active_nil (ok : Nat → Bool) (m total : Nat) (pcts : List Nat)
    (ch : AudioChapter) (st : OrchState) (hact : st.active = []) :
    (processChapter ok m total pcts ch st).active = [] := by
  show deleteActive (emitSamples ch st.completedChapters total pcts st.active).2 ch.id = []
  rw [hact]
  rcases emitSamples_act ch st.completedChapters total pcts [] with h | ⟨p, h⟩
  · rw [h]
    rfl
  · rw [h]
    show deleteActive [{ id := ch.id, title := ch.title, percentage := p }] ch.id = []
    simp [deleteActive]

lemma retryGo_terminal (ok : Nat → Bool) (m : Nat) :
    ∀ (rem attempts : Nat), rem + attempts = m → 0 < rem →
      (retryGo ok m rem attempts).completedInc = 1 ∧
      ((retryGo ok m rem attempts).outcome = some Outcome.Completed ∨
       (retryGo ok m rem attempts).outcome = some Outcome.FailedAfterRetries) := by
  intro rem
  induction rem with
  | zero => intro attempts _ h0; exact absurd h0 (by decide)
  | succ r ih =>
    intro attempts hsum _
    rw [retryGo_succ]
    by_cases hok : ok attempts = true
    · rw [if_pos hok]
      exact ⟨rfl, Or.inl rfl⟩
    · rw [if_neg hok]
      by_cases hlt : attempts + 1 < m
      · rw [if_pos hlt]
        have h := ih (attempts + 1) (by omega) (by omega)
        exact ⟨h.1, h.2⟩
      · rw [if_neg hlt]
        exact ⟨rfl, Or.inr rfl⟩

lemma retryLoop_terminal (ok : Nat → Bool) (m : Nat) (hm : 0 < m) :
    (retryLoop ok m).completedInc = 1 ∧
    ((retryLoop ok m).outcome = some Outcome.Completed ∨
     (retryLoop ok m).outcome = some Outcome.FailedAfterRetries) :=
  retryGo_terminal ok m m 0 (Nat.add_zero m) hm

lemma runPlan_structure (oracle : Nat → Nat → Bool) (ns : Nat → List Nat) (m total : Nat)
    (hm : 0 < m) :
    ∀ (plan : List PlanEntry) (i : Nat) (st : OrchState), st.active = [] →
      ∃ rs pls,
        (runPlan oracle ns m total plan i st).reports = st.reports ++ rs ∧
        rs.map (fun r => r.chapter) = plan.map (fun e => e.chapter) ∧
        (∀ r ∈ rs, r.outcome ≠ Outcome.SkippedExisting) ∧
        (runPlan oracle ns m total plan i st).completedChapters =
          st.completedChapters + plan.length ∧
        (runPlan oracle ns m total plan i st).progressLines = st.progressLines ++ pls ∧
        (∀ pl ∈ pls, pl.overallPct = jsRound100 pl.completed pl.total ∧
          pl.total = total ∧
          ∃ ch p, ch ∈ plan.map (fun e => e.chapter) ∧
            pl.active = [{ id := ch.id, title := ch.title, percentage := p }]) ∧
        (runPlan oracle ns m total plan i st).active = [] := by
  intro plan
  induction plan with
  | nil =>
    intro i st hact
    refine ⟨[], [], by simp [runPlan], rfl, ?_, by simp [runPlan], by simp [runPlan], ?_, hact⟩
    · intro r hr
      exact absurd hr (List.not_mem_nil r)
    · intro pl hpl
      exact absurd hpl (List.not_mem_nil pl)
  | cons e rest ih =>
    intro i st hact
    obtain ⟨o, ho, hoNe⟩ : ∃ o, (retryLoop (oracle i) m).outcome = some o ∧
        (o = Outcome.Completed ∨ o = Outcome.FailedAfterRetries) := by
      rcases (retryLoop_terminal (oracle i) m hm).2 with h | h
      · exact ⟨Outcome.Completed, h, Or.inl rfl⟩
      · exact ⟨Outcome.FailedAfterRetries, h, Or.inr rfl⟩
    have hpc_reports : (processChapter (oracle i) m total (ns i) e.chapter st).reports =
        st.reports ++ [{ chapter := e.chapter, outcome := o }] := by
      unfold processChapter
      rw [ho]
    have hpc_completed :
        (processChapter (oracle i) m total (ns i) e.chapter st).completedChapters =
          st.completedChapters + 1 := by
      unfold processChapter
      rw [(retryLoop_terminal (oracle i) m hm).1]
    have hpc_progress : (processChapter (oracle i) m total (ns i) e.chapter st).progressLines =
        st.progressLines ++ (emitSamples e.chapter st.completedChapters total (ns i) []).1 := by
      show st.progressLines ++
          (emitSamples e.chapter st.completedChapters total (ns i) st.active).1 =
        st.progressLines ++ (emitSamples e.chapter st.completedChapters total (ns i) []).1
      rw [hact]
    have hpc_active : (processChapter (oracle i) m total (ns i) e.chapter st).active = [] :=
      processChapter_active_nil (oracle i) m total (ns i) e.chapter st hact
    obtain ⟨rs', pls', h1, h2, h3, h4, h5, h6, h7⟩ :=
      ih (i + 1) (processChapter (oracle i) m total (ns i) e.chapter st) hpc_active
    have hrun : runPlan oracle ns m total (e :: rest) i st =
        runPlan oracle ns m total rest (i + 1)
          (processChapter (oracle i) m total (ns i) e.chapter st) := rfl
    refine ⟨{ chapter := e.chapter, outcome := o } :: rs',
      (emitSamples e.chapter st.completedChapters total (ns i) []).1 ++ pls',
      ?_, ?_, ?_, ?_, ?_, ?_, ?_⟩
    · rw [hrun, h1, hpc_reports]
      simp [List.append_assoc]
    · simp only [List.map_cons, h2]
    · intro r hr
      rcases List.mem_cons.mp hr with h' | h'
      · subst h'
        show o ≠ Outcome.SkippedExisting
        rcases hoNe with rfl | rfl
        · exact fun hcontra => Outcome.noConfusion hcontra
        · exact fun hcontra => Outcome.noConfusion hcontra
      · exact h3 r h'
    · rw [hrun, h4, hpc_completed]
      show st.completedChapters + 1 + rest.length = st.completedChapters + (rest.length + 1)
      omega
    · rw [hrun, h5, hpc_progress]
      simp [List.append_assoc]
    · intro pl hpl
      rcases List.mem_append.mp hpl with h' | h'
      · obtain ⟨e1, e2, e3, p, _, e4⟩ :=
          emitSamples_mem e.chapter st.completedChapters total (ns i) [] pl h'
        refine ⟨?_, e3, e.chapter, p, ?_, e4⟩
        · rw [e1, e2, e3]
        · simp only [List.map_cons]
          exact List.mem_cons_self _ _
      · obtain ⟨g1, g2, ch, p, hch, hact'⟩ := h6 pl h'
        refine ⟨g1, g2, ch, p, ?_, hact'⟩
        simp only [List.map_cons]
        exact List.mem_cons_of_mem _ hch
    · rw [hrun]
      exact h7

lemma buildPlan_perm (skipExisting : Bool) (ex : List Char → Bool) (bd : List Char) :
    ∀ (chs : List AudioChapter) (i0 : Nat),
      ((buildPlanFrom skipExisting ex bd chs i0).1.map (fun e => e.chapter) ++
        (buildPlanFrom skipExisting ex bd chs i0).2).Perm chs := by
  intro chs
  induction chs with
  | nil => intro i0; simp [buildPlanFrom]
  | cons ch rest ih =>
    intro i0
    simp only [buildPlanFrom]
    by_cases hc : (skipExisting && ex (chapterPath bd i0 ch.title)) = true
    · rw [if_pos hc]
      refine List.Perm.trans ?_ (List.Perm.cons ch (ih (i0 + 1)))
      exact List.perm_middle
    · rw [if_neg hc]
      simp only [List.map_cons, List.cons_append]
      exact List.Perm.cons ch (ih (i0 + 1))

/-- Claim C7 as amended: the orchestrator determines exactly one terminal
outcome per chapter of the invocation (each chapter appears in exactly one
report — skip, success, or terminal failure). -/
theorem C7_one_outcome_per_chapter (skipExisting : Bool) (ex : List Char → Bool)
    (bd : List Char) (chs : List AudioChapter) (oracle : Nat → Nat → Bool)
    (ns : Nat → List Nat) (mo : Option Nat) :
    ((orchestrate skipExisting ex bd chs oracle ns mo).reports.map
      (fun r => r.chapter)).Perm chs ∧
    (orchestrate skipExisting ex bd chs oracle ns mo).reports.length = chs.length := by
  obtain ⟨rs, pls, h1, h2, h3, h4, h5, h6, h7⟩ :=
    runPlan_structure oracle ns (maxAttemptsOf mo)
      (buildPlanFrom skipExisting ex bd chs 0).1.length (maxAttemptsOf_pos mo)
      (buildPlanFrom skipExisting ex bd chs 0).1 0
      { completedChapters := 0,
        reports := (buildPlanFrom skipExisting ex bd chs 0).2.map
          (fun ch => { chapter := ch, outcome := Outcome.SkippedExisting }),
        progressLines := [],
        active := [] } rfl
  have hperm : ((orchestrate skipExisting ex bd chs oracle ns mo).reports.map
      (fun r => r.chapter)).Perm chs := by
    unfold orchestrate
    rw [h1]
    simp only [List.map_append, List.map_map]
    have hcomp : ((fun r : ChapterReport => r.chapter) ∘
        (fun ch : AudioChapter =>
          ({ chapter := ch, outcome := Outcome.SkippedExisting } : ChapterReport))) =
        fun ch : AudioChapter => ch := rfl
    rw [hcomp, List.map_id', h2]
    refine List.Perm.trans List.perm_append_comm ?_
    exact buildPlan_perm skipExisting ex bd chs 0
  refine ⟨hperm, ?_⟩
  have hlen := hperm.length_eq
  rw [List.length_map] at hlen
  exact hlen

/-- Counterexample to claim C7: the orchestrator's caller-visible return
value is `void`; two invocations whose terminal outcome sets differ (one
all-success, one terminal failure) return the same value, so no function of
the returned value can recover the outcome set — the outcome set is NOT
made available to the caller. -/
theorem C7_counterexample :
    (orchestrate false (fun _ => false) []
        [{ id := 1, title := ['a'], duration := 0, order := 0 }]
        (fun _ _ => true) (fun _ => []) none).reports ≠
      (orchestrate false (fun _ => false) []
        [{ id := 1, title := ['a'], duration := 0, order := 0 }]
        (fun _ _ => false) (fun _ => []) none).reports ∧
    downloadChaptersParallelRet false (fun _ => false) []
        [{ id := 1, title := ['a'], duration := 0, order := 0 }]
        (fun _ _ => true) (fun _ => []) none =
      downloadChaptersParallelRet false (fun _ => false) []
        [{ id := 1, title := ['a'], duration := 0, order := 0 }]
        (fun _ _ => false) (fun _ => []) none ∧
    ¬∃ f : Unit → List ChapterReport,
      f (downloadChaptersParallelRet false (fun _ => false) []
          [{ id := 1, title := ['a'], duration := 0, order := 0 }]
          (fun _ _ => true) (fun _ => []) none) =
        (orchestrate false (fun _ => false) []
          [{ id := 1, title := ['a'], duration := 0, order := 0 }]
          (fun _ _ => true) (fun _ => []) none).reports ∧
      f (downloadChaptersParallelRet false (fun _ => false) []
          [{ id := 1, title := ['a'], duration := 0, order := 0 }]
          (fun _ _ => false) (fun _ => []) none) =
        (orchestrate false (fun _ => false) []
          [{ id := 1, title := ['a'], duration := 0, order := 0 }]
          (fun _ _ => false) (fun _ => []) none).reports := by
  have hne : (orchestrate false (fun _ => false) []
        [{ id := 1, title := ['a'], duration := 0, order := 0 }]
        (fun _ _ => true) (fun _ => []) none).reports ≠
      (orchestrate false (fun _ => false) []
        [{ id := 1, title := ['a'], duration := 0, order := 0 }]
        (fun _ _ => false) (fun _ => []) none).reports := by decide
  refine ⟨hne, rfl, ?_⟩
  rintro ⟨f, hf1, hf2⟩
  exact hne (hf1.symm.trans hf2)

/-- Counterexample to claim C8: a single chapter that fails every attempt
ends with `completedChapters = 1` although zero chapters completed — the
counter is also incremented on terminal failure (line 178). -/
theorem C8_counterexample :
    (orchestrate false (fun _ => false) []
        [{ id := 1, title := ['a'], duration := 0, order := 0 }]
        (fun _ _ => false) (fun _ => []) none).completedChapters = 1 ∧
    ((orchestrate false (fun _ => false) []
        [{ id := 1, title := ['a'], duration := 0, order := 0 }]
        (fun _ _ => false) (fun _ => []) none).reports.filter
      (fun r => decide (r.outcome = Outcome.Completed))).length = 0 ∧
    (orchestrate false (fun _ => false) []
        [{ id := 1, title := ['a'], duration := 0, order := 0 }]
        (fun _ _ => false) (fun _ => []) none).reports =
      [{ chapter := { id := 1, title := ['a'], duration := 0, order := 0 },
         outcome := Outcome.FailedAfterRetries }] := by
  decide

lemma filter_skipped_reports (l : List AudioChapter) :
    (l.map (fun ch =>
        ({ chapter := ch, outcome := Outcome.SkippedExisting } : ChapterReport))).filter
      (fun r => decide (r.outcome ≠ Outcome.SkippedExisting)) = [] := by
  induction l with
  | nil => rfl
  | cons a l ih =>
    simp only [List.map_cons, List.filter_cons]
    rw [if_neg (by simp)]
    exact ih

lemma filter_kept_reports (rs : List ChapterReport)
    (h : ∀ r ∈ rs, r.outcome ≠ Outcome.SkippedExisting) :
    rs.filter (fun r => decide (r.outcome ≠ Outcome.SkippedExisting)) = rs := by
  induction rs with
  | nil => rfl
  | cons a rs ih =>
    rw [List.filter_cons, if_pos (decide_eq_true (h a (List.mem_cons_self _ _)))]
    rw [ih (fun r hr => h r (List.mem_cons_of_mem _ hr))]

/-- Claim C8 as amended: the running `completedChapters` counter is
incremented exactly once per chapter reaching a terminal outcome — on
successful completion AND on terminal failure — so at the end it equals the
number of non-skipped (terminal) reports; unchanged from the original: on
each progress sample the emitted status line shows
`Math.round(100 * counter / totalChapters)` computed from the counter's
current value and `totalChapters` (the planned-transfer count), alongside
the per-chapter percentages of all currently active transfers (the
`activeDownloads` snapshot — here the emitting chapter with its latest
percentage, every terminally finished chapter having been deleted from the
map), with last-write-wins per chapter key. -/
theorem C8_progress_counter (skipExisting : Bool) (ex : List Char → Bool)
    (bd : List Char) (chs : List AudioChapter) (oracle : Nat → Nat → Bool)
    (ns : Nat → List Nat) (mo : Option Nat) :
    (orchestrate skipExisting ex bd chs oracle ns mo).completedChapters =
      ((orchestrate skipExisting ex bd chs oracle ns mo).reports.filter
        (fun r => decide (r.outcome ≠ Outcome.SkippedExisting))).length ∧
    ((orchestrate skipExisting ex bd chs oracle ns mo).progressLines.all
      (fun pl => (pl.overallPct == jsRound100 pl.completed pl.total) &&
        (pl.total == (buildPlanFrom skipExisting ex bd chs 0).1.length))) = true ∧
    (∀ pl ∈ (orchestrate skipExisting ex bd chs oracle ns mo).progressLines,
      ∃ ch p, ch ∈ (planOf skipExisting ex bd chs).map (fun e => e.chapter) ∧
        pl.active = [{ id := ch.id, title := ch.title, percentage := p }]) ∧
    (∀ (act : List ActiveEntry) (ch : AudioChapter) (p q : Nat),
      setActive (setActive act ch p) ch q = setActive act ch q) := by
  obtain ⟨rs, pls, h1, h2, h3, h4, h5, h6, h7⟩ :=
    runPlan_structure oracle ns (maxAttemptsOf mo)
      (buildPlanFrom skipExisting ex bd chs 0).1.length (maxAttemptsOf_pos mo)
      (buildPlanFrom skipExisting ex bd chs 0).1 0
      { completedChapters := 0,
        reports := (buildPlanFrom skipExisting ex bd chs 0).2.map
          (fun ch => { chapter := ch, outcome := Outcome.SkippedExisting }),
        progressLines := [],
        active := [] } rfl
  refine ⟨?_, ?_, ?_, fun act ch p q => setActive_lastWrite ch act p q⟩
  · unfold orchestrate
    rw [h1, h4, List.filter_append, filter_skipped_reports, filter_kept_reports rs h3]
    have hlen : rs.length = (buildPlanFrom skipExisting ex bd chs 0).1.length := by
      have := congrArg List.length h2
      rw [List.length_map, List.length_map] at this
      exact this
    simp [hlen]
  · unfold orchestrate
    rw [h5]
    rw [List.all_eq_true]
    intro pl hpl
    rcases List.mem_append.mp hpl with h' | h'
    · exact absurd h' (by simp)
    · obtain ⟨hp1, hp2, _⟩ := h6 pl h'
      rw [hp1, hp2]
      simp
  · unfold orchestrate
    rw [h5]
    intro pl hpl
    rcases List.mem_append.mp hpl with h' | h'
    · exact absurd h' (by simp)
    · obtain ⟨_, _, ch, p, hch, hact'⟩ := h6 pl h'
      exact ⟨ch, p, hch, hact'⟩

/-- Claim C8 as amended, instantiated: one chapter succeeding immediately
with a single progress callback at 50 percent. -/
theorem C8_progress_counter_witness :
    (orchestrate false (fun _ => false) []
        [{ id := 1, title := ['a'], duration := 0, order := 0 }]
        (fun _ _ => true) (fun _ => [50]) none).completedChapters =
      ((orchestrate false (fun _ => false) []
          [{ id := 1, title := ['a'], duration := 0, order := 0 }]
          (fun _ _ => true) (fun _ => [50]) none).reports.filter
        (fun r => decide (r.outcome ≠ Outcome.SkippedExisting))).length ∧
    ((orchestrate false (fun _ => false) []
        [{ id := 1, title := ['a'], duration := 0, order := 0 }]
        (fun _ _ => true) (fun _ => [50]) none).progressLines.all
      (fun pl => (pl.overallPct == jsRound100 pl.completed pl.total) &&
        (pl.total == (buildPlanFrom false (fun _ => false) []
          [{ id := 1, title := ['a'], duration := 0, order := 0 }] 0).1.length))) = true ∧
    (∀ pl ∈ (orchestrate false (fun _ => false) []
        [{ id := 1, title := ['a'], duration := 0, order := 0 }]
        (fun _ _ => true) (fun _ => [50]) none).progressLines,
      ∃ ch p, ch ∈ (planOf false (fun _ => false) []
          [{ id := 1, title := ['a'], duration := 0, order := 0 }]).map (fun e => e.chapter) ∧
        pl.active = [{ id := ch.id, title := ch.title, percentage := p }]) ∧
    (∀ (act : List ActiveEntry) (ch : AudioChapter) (p q : Nat),
      setActive (setActive act ch p) ch q = setActive act ch q) :=
  C8_progress_counter false (fun _ => false) []
    [{ id := 1, title := ['a'], duration := 0, order := 0 }]
    (fun _ _ => true) (fun _ => [50]) none

end ATCli
